import Mathlib

/-
Verification of the session script src/telnet/telnet.py.

The script is a linear pexpect session: it best-effort removes a lock
file, spawns a telnet connection, waits for a banner, attaches stdout as
the logfile, sleeps one second, then performs three send/wait pairs
(login, select INBOX, fetch 1:3 BODY.PEEK[]).

Modelling decisions, each traced to the source:
  * pexpect compiles a string argument of expect as a regular expression
    (with DOTALL).  The patterns used contain no metacharacter other
    than the dot, so a pattern is embedded as a list of tokens, each
    either a fixed character or a wildcard matching any character.
  * expect searches the incoming stream for the leftmost match and
    consumes everything up to and including the end of that match; all
    patterns here have fixed length, so the leftmost match is the one
    with the least end position.  A pattern with no match in the stream
    blocks until timeout or end of stream: an uncaught abnormal stop.
  * child.logfile = sys.stdout.buffer is executed after the first
    expect, so bytes consumed by the banner wait are never echoed.  The
    logfile records both the bytes read afterwards and the command lines
    written by sendline (sendline appends the line separator).  We model
    reads at the granularity the waits consume them.
  * The server is modelled by the byte stream it writes on the
    connection; since every command the script sends is a constant, the
    stream is an adequate abstraction of an interactive server.
  * os.remove inside try/except OSError: every filesystem failure of
    removal is an OSError subclass, so the handler swallows all of them.
-/

set_option maxRecDepth 8000

/-- Constants of src/telnet/telnet.py, lines 5 to 8. -/
def ip : String := "127.0.0.1"

def port : String := "10000"

def username : String := "nikitapekin@gmail.com"

def password : String := "12345"

/-- Path removed by the pre-step, line 11. -/
def lockPath : String := "../maildir/.lock"

/-- Argument of pexpect.spawn, line 15. -/
def spawnCmd : String := "telnet " ++ ip ++ " " ++ port

/-- Line 20: child.sendline of the login command. -/
def loginCmd : String := "1 login " ++ username ++ " " ++ password

/-- Line 22: child.sendline of the mailbox select command. -/
def selectCmd : String := "2 select INBOX"

/-- Line 44: child.sendline of the fetch command (the only fetch not
commented out; lines 25 to 42 of the source are comments). -/
def fetchCmd : String := "3 fetch 1:3 BODY.PEEK[]"

/-- Line 17: the banner pattern, any single character then a newline. -/
def bannerMarker : String := ".\n"

/-- Line 21: the login success pattern. -/
def loginMarker : String := "1 OK logged in successfully as nikitapekin@gmail.com"

/-- Line 23: the select success pattern. -/
def selectMarker : String := "successful"

/-- Line 45: the fetch completion pattern. -/
def fetchMarker : String := "completed"

/-- Separator appended by pexpect sendline. -/
def lineSep : String := "\n"

/-- One token of a compiled pexpect pattern: a fixed character, or the
regex dot which under DOTALL matches any character. -/
inductive PTok where
  | ch (c : Char)
  | any
deriving DecidableEq

/-- Whether one pattern token matches one character of the stream. -/
def ptokMatches : PTok → Char → Bool
  | PTok.ch c, d => c == d
  | PTok.any, _ => true

/-- Whether the pattern matches at the head of the stream (the match
occupies the first tokens-length characters). -/
def matchesAt : List PTok → List Char → Bool
  | [], _ => true
  | _ :: _, [] => false
  | t :: P, c :: s => ptokMatches t c && matchesAt P s

/-- Compilation of a pexpect string pattern: the dot becomes the
wildcard, every other character of the patterns used is literal. -/
def compileP (m : List Char) : List PTok :=
  m.map fun c => if c = '.' then PTok.any else PTok.ch c

/-- A pattern that matches exactly the given character list. -/
def litP (m : List Char) : List PTok :=
  m.map PTok.ch

/-- Semantics of one expect call: consume the stream through the end of
the leftmost match, returning the consumed bytes and the remainder, or
none when no match exists (pexpect raises TIMEOUT or EOF). -/
def expectConsume (P : List PTok) : List Char → Option (List Char × List Char)
  | [] => if matchesAt P [] then some ([], []) else none
  | c :: s =>
      if matchesAt P (c :: s) then
        some ((c :: s).take P.length, (c :: s).drop P.length)
      else
        match expectConsume P s with
        | some (pr, r) => some (c :: pr, r)
        | none => none

/-- Whether the pattern matches anywhere in the stream. -/
def hasMatch (P : List PTok) : List Char → Bool
  | [] => matchesAt P []
  | c :: s => matchesAt P (c :: s) || hasMatch P s

/-- The patterns occur in the stream in order, each match disjoint from
and after the previous one. -/
def MatchesInOrder : List (List PTok) → List Char → Prop
  | [], _ => True
  | P :: Ps, s => ∃ a w rest, s = a ++ w ++ rest ∧ w.length = P.length ∧
      matchesAt P (w ++ rest) = true ∧ MatchesInOrder Ps rest

/-- Executable companion of MatchesInOrder: greedily consume through the
first match of each pattern in turn. -/
def matchSeq : List (List PTok) → List Char → Bool
  | [], _ => true
  | P :: Ps, s =>
      match expectConsume P s with
      | some (_, r) => matchSeq Ps r
      | none => false

/-- The operations of the script after the connection is spawned, in
source order. -/
inductive Op where
  | expect (pattern : String)
  | setLogfile
  | sleep (seconds : Nat)
  | sendline (line : String)
deriving DecidableEq

/-- Lines 17 to 45 of src/telnet/telnet.py: the post-spawn operations in
their exact order (the blocks at lines 25 to 42 are commented out in the
source and therefore absent). -/
def script : List Op :=
  [ Op.expect bannerMarker,
    Op.setLogfile,
    Op.sleep 1,
    Op.sendline loginCmd,
    Op.expect loginMarker,
    Op.sendline selectCmd,
    Op.expect selectMarker,
    Op.sendline fetchCmd,
    Op.expect fetchMarker ]

/-- Observable events of a run. -/
inductive Ev where
  | spawned
  | matched (pattern : String)
  | logAttached
  | slept (seconds : Nat)
  | sent (line : String)
  | failed (pattern : String)
deriving DecidableEq

/-- Termination status of a run. -/
inductive Status where
  | ok
  | lockFailed
  | spawnFailed
  | expectFailed (pattern : String)
deriving DecidableEq

/-- Result of a run: event trace, command lines written to the
connection, bytes echoed to standard output, termination status. -/
structure RunResult where
  trace : List Ev
  sent : List String
  transcript : List Char
  status : Status
deriving DecidableEq

/-- Execution of the post-spawn operations against the server stream.
An expect with no match blocks until the default timeout or end of
stream and aborts the script there (everything already read by then has
been echoed when logging is attached); nothing after the failing wait
runs. -/
def runOps (logging : Bool) (out : List Char) : List Op → RunResult
  | [] => ⟨[], [], [], Status.ok⟩
  | Op.setLogfile :: rest =>
      let r := runOps true out rest
      { r with trace := Ev.logAttached :: r.trace }
  | Op.sleep n :: rest =>
      let r := runOps logging out rest
      { r with trace := Ev.slept n :: r.trace }
  | Op.sendline s :: rest =>
      let r := runOps logging out rest
      { r with trace := Ev.sent s :: r.trace,
               sent := s :: r.sent,
               transcript := (if logging then (s ++ lineSep).data else []) ++ r.transcript }
  | Op.expect p :: rest =>
      match expectConsume (compileP p.data) out with
      | some (pr, out') =>
          let r := runOps logging out' rest
          { r with trace := Ev.matched p :: r.trace,
                   transcript := (if logging then pr else []) ++ r.transcript }
      | none =>
          ⟨[Ev.failed p], [], if logging then out else [], Status.expectFailed p⟩

/-- The filesystem failures os.remove can raise; all are OSError
subclasses in Python, hence all are caught by except OSError. -/
inductive OSError where
  | fileNotFound
  | permissionDenied
  | other
deriving DecidableEq

/-- Lines 10 to 13: try: os.remove(lockPath) except OSError: pass.  The
argument is the outcome os.remove produces; the handler swallows every
OSError. -/
def tryRemoveLock (removal : Except OSError Unit) : Except OSError Unit :=
  match removal with
  | Except.ok _ => Except.ok ()
  | Except.error _ => Except.ok ()

/-- Environment of one run: the outcome the os.remove call would have,
whether pexpect.spawn succeeds, and the byte stream the server writes. -/
structure Env where
  lockRemoval : Except OSError Unit
  spawnOk : Bool
  serverOut : List Char

/-- The whole program: lock pre-step, spawn, then the scripted session.
An uncaught lock error or a spawn error aborts before anything is sent. -/
def runProgram (env : Env) : RunResult :=
  match tryRemoveLock env.lockRemoval with
  | Except.error _ => ⟨[], [], [], Status.lockFailed⟩
  | Except.ok _ =>
      if env.spawnOk then
        let r := runOps false env.serverOut script
        { r with trace := Ev.spawned :: r.trace }
      else
        ⟨[], [], [], Status.spawnFailed⟩

/-- Command line written by a send operation, if any. -/
def opSend : Op → Option String
  | Op.sendline s => some s
  | _ => none

/-- The command lines a list of operations would send, in order. -/
def opsSends (ops : List Op) : List String :=
  ops.filterMap opSend

/-- Compiled pattern of a wait operation, if any. -/
def opPat : Op → Option (List PTok)
  | Op.expect p => some (compileP p.data)
  | _ => none

/-- The compiled patterns a list of operations waits for, in order. -/
def opsPats (ops : List Op) : List (List PTok) :=
  ops.filterMap opPat

/-- Connection operations of the static script: true for a send, false
for a wait. -/
def connOp : Op → Option Bool
  | Op.sendline _ => some true
  | Op.expect _ => some false
  | _ => none

/-- Connection events of a run trace: true for a send, false for a wait
(a failed wait is still a wait). -/
def evConn : Ev → Option Bool
  | Ev.sent _ => some true
  | Ev.matched _ => some false
  | Ev.failed _ => some false
  | _ => none

/-- The send/wait shape of a run. -/
def traceConn (r : RunResult) : List Bool :=
  r.trace.filterMap evConn

/-- Tag of a command line: its first space-separated token. -/
def cmdTag (s : String) : List Char :=
  s.data.takeWhile fun c => c ≠ ' '

theorem prefNil {α : Type} (l : List α) : [] <+: l := ⟨l, rfl⟩

theorem prefCons {α : Type} {l₁ l₂ : List α} (a : α) (h : l₁ <+: l₂) :
    a :: l₁ <+: a :: l₂ := by
  obtain ⟨t, rfl⟩ := h
  exact ⟨t, rfl⟩

theorem suffix_drop_of_le {α : Type} {s u : List α} (k : Nat) (h : u <:+ s)
    (hk : k + u.length ≤ s.length) : u <:+ s.drop k := by
  obtain ⟨x, rfl⟩ := h
  have hkx : k ≤ x.length := by
    have := List.length_append x u
    omega
  refine ⟨x.drop k, ?_⟩
  rw [List.drop_append_eq_append_drop, Nat.sub_eq_zero_of_le hkx, List.drop_zero]

theorem matchesAt_nil_eq (P : List PTok) (h : matchesAt P [] = true) : P = [] := by
  cases P with
  | nil => rfl
  | cons t P => simp [matchesAt] at h

theorem matchesAt_length_le : ∀ (P : List PTok) (s : List Char),
    matchesAt P s = true → P.length ≤ s.length
  | [], _, _ => Nat.zero_le _
  | _ :: _, [], h => by simp [matchesAt] at h
  | t :: P, c :: s, h => by
    simp only [matchesAt, Bool.and_eq_true] at h
    simpa using Nat.succ_le_succ (matchesAt_length_le P s h.2)

theorem matchesAt_take : ∀ (P : List PTok) (s : List Char),
    matchesAt P s = true → matchesAt P (s.take P.length) = true
  | [], _, _ => rfl
  | _ :: _, [], h => by simp [matchesAt] at h
  | t :: P, c :: s, h => by
    simp only [matchesAt, Bool.and_eq_true] at h
    simp only [List.length_cons, List.take_succ_cons, matchesAt, Bool.and_eq_true]
    exact ⟨h.1, matchesAt_take P s h.2⟩

theorem matchesAt_append : ∀ (P : List PTok) (w t : List Char),
    matchesAt P w = true → matchesAt P (w ++ t) = true
  | [], _, _, _ => rfl
  | _ :: _, [], _, h => by simp [matchesAt] at h
  | p :: P, c :: w, t, h => by
    simp only [matchesAt, Bool.and_eq_true] at h
    simp only [List.cons_append, matchesAt, Bool.and_eq_true]
    exact ⟨h.1, matchesAt_append P w t h.2⟩

theorem compileP_length (m : List Char) : (compileP m).length = m.length := by
  simp [compileP]

theorem litP_length (m : List Char) : (litP m).length = m.length := by
  simp [litP]

theorem litP_exact : ∀ (m w : List Char),
    matchesAt (litP m) w = true → w.length = m.length → w = m
  | [], [], _, _ => rfl
  | [], _ :: _, _, hl => by simp at hl
  | _ :: _, [], h, _ => by simp [litP, matchesAt] at h
  | c :: m, d :: w, h, hl => by
    simp only [litP, List.map_cons, matchesAt, ptokMatches, Bool.and_eq_true,
      beq_iff_eq] at h
    simp only [List.length_cons, Nat.succ.injEq] at hl
    rw [← h.1, litP_exact m w h.2 hl]

theorem litP_to_compileP : ∀ (m x : List Char),
    matchesAt (litP m) x = true → matchesAt (compileP m) x = true
  | [], _, _ => rfl
  | _ :: _, [], h => by simp [litP, matchesAt] at h
  | c :: m, d :: x, h => by
    simp only [litP, List.map_cons, matchesAt, Bool.and_eq_true] at h
    simp only [compileP, List.map_cons, matchesAt, Bool.and_eq_true]
    refine ⟨?_, litP_to_compileP m x h.2⟩
    by_cases hc : c = '.'
    · simp [hc, ptokMatches]
    · simpa [hc, ptokMatches] using h.1

theorem expectConsume_split : ∀ (P : List PTok) (s pr r : List Char),
    expectConsume P s = some (pr, r) →
    s = pr ++ r ∧ ∃ a w, pr = a ++ w ∧ w.length = P.length ∧ matchesAt P w = true := by
  intro P s
  induction s with
  | nil =>
    intro pr r h
    simp only [expectConsume] at h
    by_cases hm : matchesAt P [] = true
    · simp only [hm, if_true, Option.some.injEq, Prod.mk.injEq] at h
      obtain ⟨h1, h2⟩ := h
      subst h1; subst h2
      have hP := matchesAt_nil_eq P hm
      subst hP
      exact ⟨rfl, [], [], rfl, rfl, rfl⟩
    · simp [hm] at h
  | cons c s ih =>
    intro pr r h
    simp only [expectConsume] at h
    by_cases hm : matchesAt P (c :: s) = true
    · simp only [hm, if_true, Option.some.injEq, Prod.mk.injEq] at h
      obtain ⟨h1, h2⟩ := h
      subst h1; subst h2
      refine ⟨(List.take_append_drop _ _).symm, [], (c :: s).take P.length,
        rfl, ?_, matchesAt_take P (c :: s) hm⟩
      rw [List.length_take]
      exact Nat.min_eq_left (matchesAt_length_le P (c :: s) hm)
    · simp only [hm, if_false, Bool.false_eq_true] at h
      cases he : expectConsume P s with
      | none => rw [he] at h; simp at h
      | some pr' =>
        obtain ⟨pr'', r''⟩ := pr'
        rw [he] at h
        simp only [Option.some.injEq, Prod.mk.injEq] at h
        obtain ⟨h1, h2⟩ := h
        subst h1; subst h2
        obtain ⟨hs, a, w, hpr, hlen, hmat⟩ := ih _ _ he
        exact ⟨by simp [hs], c :: a, w, by simp [hpr], hlen, hmat⟩

theorem expectConsume_window : ∀ (a : List Char) (P : List PTok) (w rest : List Char),
    w.length = P.length → matchesAt P (w ++ rest) = true →
    ∃ pr r', expectConsume P (a ++ (w ++ rest)) = some (pr, r') ∧ rest <:+ r' := by
  intro a
  induction a with
  | nil =>
    intro P w rest hl hm
    cases hwr : w ++ rest with
    | nil =>
      obtain ⟨hw, hr⟩ := List.append_eq_nil.mp hwr
      subst hw; subst hr
      have hP : P = [] := by simpa using hl.symm
      subst hP
      exact ⟨[], [], rfl, List.suffix_refl _⟩
    | cons c s =>
      rw [hwr] at hm
      refine ⟨(c :: s).take P.length, (c :: s).drop P.length, ?_, ?_⟩
      · simp only [List.nil_append, hwr]
        simp [expectConsume, hm]
      · rw [← hwr, ← hl, List.drop_left]
  | cons c a ih =>
    intro P w rest hl hm
    by_cases hm2 : matchesAt P (c :: (a ++ (w ++ rest))) = true
    · refine ⟨(c :: (a ++ (w ++ rest))).take P.length,
        (c :: (a ++ (w ++ rest))).drop P.length, ?_, ?_⟩
      · simp only [List.cons_append, expectConsume, List.append_eq]
        rw [if_pos hm2]
      · refine suffix_drop_of_le P.length ⟨c :: (a ++ w), by simp⟩ ?_
        simp only [List.length_cons, List.length_append]
        omega
    · obtain ⟨pr, r', he, hsuf⟩ := ih P w rest hl hm
      refine ⟨c :: pr, r', ?_, hsuf⟩
      simp only [List.cons_append, expectConsume, List.append_eq]
      rw [if_neg hm2, he]

theorem expectConsume_none_iff (P : List PTok) :
    ∀ s : List Char, expectConsume P s = none ↔ hasMatch P s = false := by
  intro s
  induction s with
  | nil =>
    by_cases hm : matchesAt P [] = true <;> simp [expectConsume, hasMatch, hm]
  | cons c s ih =>
    by_cases hm : matchesAt P (c :: s) = true
    · simp [expectConsume, hasMatch, hm]
    · cases he : expectConsume P s with
      | none =>
        have hms := ih.mp he
        simp [expectConsume, hasMatch, hm, he, hms]
      | some pr =>
        obtain ⟨pr', r'⟩ := pr
        have hms : hasMatch P s = true := by
          cases hx : hasMatch P s with
          | true => rfl
          | false => rw [ih.mpr hx] at he; exact absurd he (by simp)
        simp [expectConsume, hasMatch, hm, he, hms]

theorem hasMatch_of_suffix (P : List PTok) :
    ∀ {s t : List Char}, t <:+ s → hasMatch P t = true → hasMatch P s = true := by
  intro s
  induction s with
  | nil =>
    intro t hsuf hm
    rw [List.suffix_nil.mp hsuf] at hm
    exact hm
  | cons c s ih =>
    intro t hsuf hm
    rcases List.suffix_cons_iff.mp hsuf with h | h
    · rw [← h]; exact hm
    · simp only [hasMatch, Bool.or_eq_true]
      exact Or.inr (ih h hm)

theorem matchesInOrder_of_suffix : ∀ (Ps : List (List PTok)) {rest r' : List Char},
    MatchesInOrder Ps rest → rest <:+ r' → MatchesInOrder Ps r'
  | [], _, _, _, _ => trivial
  | P :: Ps, rest, r', h, hsuf => by
    obtain ⟨a, w, r2, hsplit, hl, hm, ht⟩ := h
    obtain ⟨b, rfl⟩ := hsuf
    exact ⟨b ++ a, w, r2, by rw [hsplit]; simp, hl, hm, ht⟩

theorem matchSeq_iff : ∀ (Ps : List (List PTok)) (s : List Char),
    MatchesInOrder Ps s ↔ matchSeq Ps s = true
  | [], s => by simp [MatchesInOrder, matchSeq]
  | P :: Ps, s => by
    constructor
    · rintro ⟨a, w, rest, rfl, hl, hm, ht⟩
      obtain ⟨pr, r', he, hsuf⟩ := expectConsume_window a P w rest hl hm
      rw [← List.append_assoc] at he
      simp only [matchSeq, he]
      exact (matchSeq_iff Ps r').mp (matchesInOrder_of_suffix Ps ht hsuf)
    · intro h
      simp only [matchSeq] at h
      cases he : expectConsume P s with
      | none => rw [he] at h; simp at h
      | some pr =>
        obtain ⟨pr', r'⟩ := pr
        rw [he] at h
        obtain ⟨hs, a, w, hpr, hl, hm⟩ := expectConsume_split P s pr' r' he
        refine ⟨a, w, r', by simp [hs, hpr], hl,
          matchesAt_append P w r' hm, (matchSeq_iff Ps r').mpr h⟩

theorem matchesInOrder_weaken :
    ∀ {Ps Qs : List (List PTok)},
      List.Forall₂ (fun P Q => P.length = Q.length ∧
        ∀ x, matchesAt P x = true → matchesAt Q x = true) Ps Qs →
      ∀ {s : List Char}, MatchesInOrder Ps s → MatchesInOrder Qs s := by
  intro Ps Qs hrel
  induction hrel with
  | nil => intro s h; trivial
  | cons hPQ htail ih =>
    intro s h
    obtain ⟨a, w, rest, hsplit, hl, hm, ht⟩ := h
    exact ⟨a, w, rest, hsplit, by rw [hl, hPQ.1], hPQ.2 _ hm, ih ht⟩

theorem runOps_sent_pref (ops : List Op) : ∀ (logging : Bool) (out : List Char),
    (runOps logging out ops).sent <+: opsSends ops := by
  induction ops with
  | nil => intro logging out; exact ⟨[], rfl⟩
  | cons op rest ih =>
    intro logging out
    cases op with
    | setLogfile => simpa [runOps, opsSends, opSend] using ih true out
    | sleep n => simpa [runOps, opsSends, opSend] using ih logging out
    | sendline s =>
      simp only [runOps, opsSends, List.filterMap_cons, opSend]
      exact prefCons s (ih logging out)
    | expect p =>
      cases he : expectConsume (compileP p.data) out with
      | some pr =>
        obtain ⟨pr', out'⟩ := pr
        simp only [runOps, he, opsSends, List.filterMap_cons, opSend]
        exact ih logging out'
      | none =>
        simp only [runOps, he, opsSends, List.filterMap_cons, opSend]
        exact prefNil _

theorem runOps_status_ok (ops : List Op) : ∀ (logging : Bool) (out : List Char),
    (runOps logging out ops).status = Status.ok →
    (runOps logging out ops).sent = opsSends ops := by
  induction ops with
  | nil => intro _ _ _; rfl
  | cons op rest ih =>
    intro logging out h
    cases op with
    | setLogfile =>
      simp only [runOps] at h ⊢
      simpa [opsSends, opSend] using ih true out h
    | sleep n =>
      simp only [runOps] at h ⊢
      simpa [opsSends, opSend] using ih logging out h
    | sendline s =>
      simp only [runOps] at h ⊢
      simp only [opsSends, List.filterMap_cons, opSend]
      rw [ih logging out h]
      rfl
    | expect p =>
      cases he : expectConsume (compileP p.data) out with
      | some pr =>
        obtain ⟨pr', out'⟩ := pr
        simp only [runOps, he] at h ⊢
        simpa [opsSends, opSend] using ih logging out' h
      | none => simp [runOps, he] at h

theorem runOps_conn (ops : List Op) : ∀ (logging : Bool) (out : List Char),
    traceConn (runOps logging out ops) <+: ops.filterMap connOp := by
  induction ops with
  | nil => intro logging out; exact ⟨[], rfl⟩
  | cons op rest ih =>
    intro logging out
    cases op with
    | setLogfile =>
      simpa [runOps, traceConn, evConn, connOp] using ih true out
    | sleep n =>
      simpa [runOps, traceConn, evConn, connOp] using ih logging out
    | sendline s =>
      simp only [runOps, traceConn, List.filterMap_cons, evConn, connOp]
      exact prefCons true (ih logging out)
    | expect p =>
      cases he : expectConsume (compileP p.data) out with
      | some pr =>
        obtain ⟨pr', out'⟩ := pr
        simp only [runOps, he, traceConn, List.filterMap_cons, evConn, connOp]
        exact prefCons false (ih logging out')
      | none =>
        simp only [runOps, he, traceConn, List.filterMap_cons, evConn, connOp]
        exact prefCons false (prefNil _)

theorem runOps_fail (ops : List Op) : ∀ (logging : Bool) (out : List Char) (p : String),
    (runOps logging out ops).status = Status.expectFailed p →
    ∃ t, (runOps logging out ops).trace = t ++ [Ev.failed p] := by
  induction ops with
  | nil => intro _ _ _ h; simp [runOps] at h
  | cons op rest ih =>
    intro logging out p h
    cases op with
    | setLogfile =>
      simp only [runOps] at h ⊢
      obtain ⟨t, ht⟩ := ih true out p h
      exact ⟨Ev.logAttached :: t, by rw [ht]; rfl⟩
    | sleep n =>
      simp only [runOps] at h ⊢
      obtain ⟨t, ht⟩ := ih logging out p h
      exact ⟨Ev.slept n :: t, by rw [ht]; rfl⟩
    | sendline s =>
      simp only [runOps] at h ⊢
      obtain ⟨t, ht⟩ := ih logging out p h
      exact ⟨Ev.sent s :: t, by rw [ht]; rfl⟩
    | expect q =>
      cases he : expectConsume (compileP q.data) out with
      | some pr =>
        obtain ⟨pr', out'⟩ := pr
        simp only [runOps, he] at h ⊢
        obtain ⟨t, ht⟩ := ih logging out' p h
        exact ⟨Ev.matched q :: t, by rw [ht]; rfl⟩
      | none =>
        simp only [runOps, he, Status.expectFailed.injEq] at h ⊢
        subst h
        exact ⟨[], rfl⟩

theorem runProgram_spawnTrue (r : Except OSError Unit) (out : List Char) :
    runProgram ⟨r, true, out⟩ =
      { runOps false out script with
        trace := Ev.spawned :: (runOps false out script).trace } := by
  cases r <;> rfl

theorem runProgram_spawnFalse (r : Except OSError Unit) (out : List Char) :
    runProgram ⟨r, false, out⟩ = ⟨[], [], [], Status.spawnFailed⟩ := by
  cases r <;> rfl

theorem runOps_script_all (out c0 r0 c1 r1 c2 r2 c3 r3 : List Char)
    (h0 : expectConsume (compileP bannerMarker.data) out = some (c0, r0))
    (h1 : expectConsume (compileP loginMarker.data) r0 = some (c1, r1))
    (h2 : expectConsume (compileP selectMarker.data) r1 = some (c2, r2))
    (h3 : expectConsume (compileP fetchMarker.data) r2 = some (c3, r3)) :
    runOps false out script =
      ⟨[Ev.matched bannerMarker, Ev.logAttached, Ev.slept 1, Ev.sent loginCmd,
        Ev.matched loginMarker, Ev.sent selectCmd, Ev.matched selectMarker,
        Ev.sent fetchCmd, Ev.matched fetchMarker],
       [loginCmd, selectCmd, fetchCmd],
       (loginCmd ++ lineSep).data ++ (c1 ++ ((selectCmd ++ lineSep).data ++
         (c2 ++ ((fetchCmd ++ lineSep).data ++ c3)))),
       Status.ok⟩ := by
  simp [script, runOps, h0, h1, h2, h3]

theorem runOps_script_bannerFail (out : List Char)
    (h0 : expectConsume (compileP bannerMarker.data) out = none) :
    runOps false out script =
      ⟨[Ev.failed bannerMarker], [], [], Status.expectFailed bannerMarker⟩ := by
  simp [script, runOps, h0]

theorem runOps_script_loginFail (out c0 r0 : List Char)
    (h0 : expectConsume (compileP bannerMarker.data) out = some (c0, r0))
    (h1 : expectConsume (compileP loginMarker.data) r0 = none) :
    runOps false out script =
      ⟨[Ev.matched bannerMarker, Ev.logAttached, Ev.slept 1, Ev.sent loginCmd,
        Ev.failed loginMarker],
       [loginCmd], (loginCmd ++ lineSep).data ++ r0,
       Status.expectFailed loginMarker⟩ := by
  simp [script, runOps, h0, h1]

/-- Compiled pattern of the banner wait (line 17). -/
abbrev bannerToks : List PTok := compileP bannerMarker.data

/-- Compiled pattern of the login wait (line 21); the dot in gmail.com
is a regex wildcard. -/
abbrev loginToks : List PTok := compileP loginMarker.data

/-- Compiled pattern of the select wait (line 23). -/
abbrev selectToks : List PTok := compileP selectMarker.data

/-- Compiled pattern of the fetch wait (line 45). -/
abbrev fetchToks : List PTok := compileP fetchMarker.data

/-- The server stream produces, in order: a banner (some character then
a newline), then the literal login success marker, then the literal
select marker, then the literal fetch marker. -/
def ProducesMarkers (out : List Char) : Prop :=
  MatchesInOrder [bannerToks, litP loginMarker.data, litP selectMarker.data,
    litP fetchMarker.data] out

theorem litP_matches_self : ∀ m : List Char, matchesAt (litP m) m = true
  | [] => rfl
  | c :: m => by
    have ih := litP_matches_self m
    simp only [litP] at ih ⊢
    simp [matchesAt, ptokMatches, ih]

theorem producesMarkers_to_pats {out : List Char} (h : ProducesMarkers out) :
    MatchesInOrder [bannerToks, loginToks, selectToks, fetchToks] out := by
  refine matchesInOrder_weaken ?_ h
  refine List.Forall₂.cons ⟨rfl, fun _ hx => hx⟩ ?_
  refine List.Forall₂.cons
    ⟨by rw [litP_length, compileP_length], fun x hx => litP_to_compileP _ x hx⟩ ?_
  refine List.Forall₂.cons
    ⟨by rw [litP_length, compileP_length], fun x hx => litP_to_compileP _ x hx⟩ ?_
  exact List.Forall₂.cons
    ⟨by rw [litP_length, compileP_length], fun x hx => litP_to_compileP _ x hx⟩
    List.Forall₂.nil

theorem script_completes {out : List Char}
    (h : MatchesInOrder [bannerToks, loginToks, selectToks, fetchToks] out) :
    ∃ c0 r0 c1 r1 c2 r2 c3 r3 : List Char,
      expectConsume bannerToks out = some (c0, r0) ∧
      expectConsume loginToks r0 = some (c1, r1) ∧
      expectConsume selectToks r1 = some (c2, r2) ∧
      expectConsume fetchToks r2 = some (c3, r3) := by
  obtain ⟨a, w, rest, rfl, hl, hm, h2⟩ := h
  obtain ⟨c0, r0, he0, hsuf0⟩ := expectConsume_window a bannerToks w rest hl hm
  rw [← List.append_assoc] at he0
  obtain ⟨a1, w1, rest1, hr0, hl1, hm1, h3⟩ := matchesInOrder_of_suffix _ h2 hsuf0
  obtain ⟨c1, r1, he1, hsuf1⟩ := expectConsume_window a1 loginToks w1 rest1 hl1 hm1
  rw [← List.append_assoc, ← hr0] at he1
  obtain ⟨a2, w2, rest2, hr1, hl2, hm2, h4⟩ := matchesInOrder_of_suffix _ h3 hsuf1
  obtain ⟨c2, r2, he2, hsuf2⟩ := expectConsume_window a2 selectToks w2 rest2 hl2 hm2
  rw [← List.append_assoc, ← hr1] at he2
  obtain ⟨a3, w3, rest3, hr2, hl3, hm3, _⟩ := matchesInOrder_of_suffix _ h4 hsuf2
  obtain ⟨c3, r3, he3, _⟩ := expectConsume_window a3 fetchToks w3 rest3 hl3 hm3
  rw [← List.append_assoc, ← hr2] at he3
  exact ⟨c0, r0, c1, r1, c2, r2, c3, r3, he0, he1, he2, he3⟩

theorem script_run_ok {out : List Char}
    (h : MatchesInOrder [bannerToks, loginToks, selectToks, fetchToks] out) :
    (runOps false out script).status = Status.ok ∧
    (runOps false out script).sent = [loginCmd, selectCmd, fetchCmd] := by
  obtain ⟨c0, r0, c1, r1, c2, r2, c3, r3, h0, h1, h2, h3⟩ := script_completes h
  rw [runOps_script_all out c0 r0 c1 r1 c2 r2 c3 r3 h0 h1 h2 h3]
  exact ⟨rfl, rfl⟩

theorem runOps_status (ops : List Op) : ∀ (logging : Bool) (out : List Char),
    (runOps logging out ops).status = Status.ok ∨
    ∃ p, (runOps logging out ops).status = Status.expectFailed p := by
  induction ops with
  | nil => intro _ _; exact Or.inl rfl
  | cons op rest ih =>
    intro logging out
    cases op with
    | setLogfile => simpa [runOps] using ih true out
    | sleep n => simpa [runOps] using ih logging out
    | sendline s => simpa [runOps] using ih logging out
    | expect p =>
      cases he : expectConsume (compileP p.data) out with
      | some pr =>
        obtain ⟨pr', out'⟩ := pr
        simpa [runOps, he] using ih logging out'
      | none => exact Or.inr ⟨p, by simp [runOps, he]⟩

theorem runOps_script_head (out c0 r0 : List Char)
    (h0 : expectConsume (compileP bannerMarker.data) out = some (c0, r0)) :
    (runOps false out script).trace =
      Ev.matched bannerMarker :: Ev.logAttached :: Ev.slept 1 :: Ev.sent loginCmd ::
        (runOps true r0 [Op.expect loginMarker, Op.sendline selectCmd,
          Op.expect selectMarker, Op.sendline fetchCmd, Op.expect fetchMarker]).trace := by
  simp [script, runOps, h0]

theorem runOps_script_selectFail (out c0 r0 c1 r1 : List Char)
    (h0 : expectConsume (compileP bannerMarker.data) out = some (c0, r0))
    (h1 : expectConsume (compileP loginMarker.data) r0 = some (c1, r1))
    (h2 : expectConsume (compileP selectMarker.data) r1 = none) :
    runOps false out script =
      ⟨[Ev.matched bannerMarker, Ev.logAttached, Ev.slept 1, Ev.sent loginCmd,
        Ev.matched loginMarker, Ev.sent selectCmd, Ev.failed selectMarker],
       [loginCmd, selectCmd],
       (loginCmd ++ lineSep).data ++ (c1 ++ ((selectCmd ++ lineSep).data ++ r1)),
       Status.expectFailed selectMarker⟩ := by
  simp [script, runOps, h0, h1, h2]

theorem runOps_script_fetchFail (out c0 r0 c1 r1 c2 r2 : List Char)
    (h0 : expectConsume (compileP bannerMarker.data) out = some (c0, r0))
    (h1 : expectConsume (compileP loginMarker.data) r0 = some (c1, r1))
    (h2 : expectConsume (compileP selectMarker.data) r1 = some (c2, r2))
    (h3 : expectConsume (compileP fetchMarker.data) r2 = none) :
    runOps false out script =
      ⟨[Ev.matched bannerMarker, Ev.logAttached, Ev.slept 1, Ev.sent loginCmd,
        Ev.matched loginMarker, Ev.sent selectCmd, Ev.matched selectMarker,
        Ev.sent fetchCmd, Ev.failed fetchMarker],
       [loginCmd, selectCmd, fetchCmd],
       (loginCmd ++ lineSep).data ++ (c1 ++ ((selectCmd ++ lineSep).data ++
         (c2 ++ ((fetchCmd ++ lineSep).data ++ r2)))),
       Status.expectFailed fetchMarker⟩ := by
  simp [script, runOps, h0, h1, h2, h3]

theorem chainNe_of_pref {l L : List Bool} (h : l <+: L)
    (hL : List.Chain' (fun a b : Bool => a ≠ b) L) :
    List.Chain' (fun a b : Bool => a ≠ b) l := by
  obtain ⟨t, rfl⟩ := h
  exact hL.left_of_append

/-- A conforming server stream: banner line, then the three literal
markers back to back. -/
def goodOut : List Char :=
  "Z\n1 OK logged in successfully as nikitapekin@gmail.comsuccessfulcompleted".data

/-- A second conforming stream with a longer banner and filler around
the markers. -/
def goodOut2 : List Char :=
  "Welcome\nxx1 OK logged in successfully as nikitapekin@gmail.com yy successful zz completed".data

/-- A stream whose login reply has X where the marker has the dot: the
literal marker never occurs, but the compiled pattern matches. -/
def trickyOut : List Char :=
  "Z\n1 OK logged in successfully as nikitapekin@gmailXcomsuccessfulcompleted".data

/-- As trickyOut but with Q and nothing after the login reply. -/
def trickyOut2 : List Char :=
  "Z\n1 OK logged in successfully as nikitapekin@gmailQcom".data

/-- A stream that matches the banner but never the login pattern. -/
def silentOut : List Char :=
  "* OK IMAP ready\nnothing else".data

/-- Claim C1: the script writes exactly the three fixed command lines,
login then select INBOX then fetch 1:3 BODY.PEEK[], and no other: its
operation list contains exactly these send operations in this order,
every run writes a prefix of this sequence, and every run that
terminates normally writes exactly it. -/
theorem claim1 :
    opsSends script = [loginCmd, selectCmd, fetchCmd] ∧
    ∀ env : Env, (runProgram env).sent <+: [loginCmd, selectCmd, fetchCmd] ∧
      ((runProgram env).status = Status.ok →
        (runProgram env).sent = [loginCmd, selectCmd, fetchCmd]) := by
  refine ⟨rfl, ?_⟩
  intro env
  obtain ⟨r, sOk, out⟩ := env
  cases sOk with
  | false =>
    rw [runProgram_spawnFalse]
    exact ⟨prefNil _, fun h => by simp at h⟩
  | true =>
    rw [runProgram_spawnTrue]
    constructor
    · simpa using runOps_sent_pref script false out
    · intro h
      simpa using runOps_status_ok script false out (by simpa using h)

/-- Witness for claim C1 at a conforming server stream: a normally
terminating run writes exactly the three commands. -/
theorem claim1_witness :
    (runProgram ⟨Except.ok (), true, goodOut⟩).sent =
      [loginCmd, selectCmd, fetchCmd] :=
  (claim1.2 ⟨Except.ok (), true, goodOut⟩).2 (by decide)

/-- Claim C5: connection operations strictly alternate: statically the
script interleaves waits and sends as wait, send, wait, send, wait,
send, wait, every run realizes a prefix of that shape, and in no run do
two sends or two waits ever occur consecutively; from the login send
onwards the shape is send, wait, send, wait, send, wait. -/
theorem claim5 :
    script.filterMap connOp = [false, true, false, true, false, true, false] ∧
    ∀ env : Env,
      traceConn (runProgram env) <+: [false, true, false, true, false, true, false] ∧
      List.Chain' (fun a b : Bool => a ≠ b) (traceConn (runProgram env)) := by
  refine ⟨rfl, ?_⟩
  intro env
  obtain ⟨r, sOk, out⟩ := env
  have halt : List.Chain' (fun a b : Bool => a ≠ b)
      [false, true, false, true, false, true, false] := by
    simp [List.chain'_cons]
  cases sOk with
  | false =>
    rw [runProgram_spawnFalse]
    exact ⟨prefNil _, by simp [traceConn]⟩
  | true =>
    rw [runProgram_spawnTrue]
    have hsame : traceConn { runOps false out script with
        trace := Ev.spawned :: (runOps false out script).trace } =
        traceConn (runOps false out script) := by
      simp [traceConn, evConn]
    rw [hsame]
    have hp : traceConn (runOps false out script) <+:
        [false, true, false, true, false, true, false] := by
      simpa using runOps_conn script false out
    exact ⟨hp, chainNe_of_pref hp halt⟩

/-- Witness for claim C5 at a conforming server stream. -/
theorem claim5_witness :
    traceConn (runProgram ⟨Except.ok (), true, goodOut⟩) <+:
      [false, true, false, true, false, true, false] ∧
    List.Chain' (fun a b : Bool => a ≠ b)
      (traceConn (runProgram ⟨Except.ok (), true, goodOut⟩)) :=
  claim5.2 ⟨Except.ok (), true, goodOut⟩

/-- Claim C6: the lock removal pre-step is a best-effort no-op on
failure: the try/except swallows every OSError outcome of os.remove,
and the whole observable run (trace, commands sent, transcript, status)
is identical whatever that outcome was, in particular when the lock
file was absent. -/
theorem claim6 :
    (∀ res : Except OSError Unit, tryRemoveLock res = Except.ok ()) ∧
    ∀ (res res' : Except OSError Unit) (sOk : Bool) (out : List Char),
      runProgram ⟨res, sOk, out⟩ = runProgram ⟨res', sOk, out⟩ := by
  constructor
  · intro res; cases res <;> rfl
  · intro res res' sOk out
    cases res <;> cases res' <;> rfl

/-- Claim C7: every failure apart from lock removal is uncaught and
final: in every run the sent commands are a duplicate-free prefix of
the three fixed commands (nothing is ever re-issued), a spawn failure
sends nothing, and a failed wait ends the run with the failure as the
last event. -/
theorem claim7 :
    ∀ env : Env, ((runProgram env).sent).Nodup ∧
      (runProgram env).sent <+: [loginCmd, selectCmd, fetchCmd] ∧
      ((runProgram env).status = Status.spawnFailed →
        (runProgram env).sent = [] ∧ (runProgram env).trace = []) ∧
      ∀ p, (runProgram env).status = Status.expectFailed p →
        ∃ t, (runProgram env).trace = t ++ [Ev.failed p] := by
  intro env
  obtain ⟨r, sOk, out⟩ := env
  cases sOk with
  | false =>
    rw [runProgram_spawnFalse]
    exact ⟨List.nodup_nil, prefNil _, fun _ => ⟨rfl, rfl⟩, fun p h => by simp at h⟩
  | true =>
    rw [runProgram_spawnTrue]
    have hpre : (runOps false out script).sent <+: [loginCmd, selectCmd, fetchCmd] := by
      simpa using runOps_sent_pref script false out
    have hnodup : ((runOps false out script).sent).Nodup := by
      have hcmds : ([loginCmd, selectCmd, fetchCmd] : List String).Nodup := by decide
      exact List.Nodup.sublist hpre.sublist hcmds
    refine ⟨by simpa using hnodup, by simpa using hpre, ?_, ?_⟩
    · intro h
      simp only at h
      rcases runOps_status script false out with hok | ⟨p, hp⟩
      · rw [hok] at h; simp at h
      · rw [hp] at h; simp at h
    · intro p h
      simp only at h
      obtain ⟨t, ht⟩ := runOps_fail script false out p h
      exact ⟨Ev.spawned :: t, by simp [ht]⟩

/-- Witness for claim C7 at a server that never answers the login: the
run ends at the failed login wait. -/
theorem claim7_witness :
    ∃ t, (runProgram ⟨Except.ok (), true, silentOut⟩).trace =
      t ++ [Ev.failed loginMarker] :=
  (claim7 ⟨Except.ok (), true, silentOut⟩).2.2.2 loginMarker (by decide)

/-- Claim C8: the unconditional one-second pause sits strictly between
the banner wait and the login send: whenever the login command is sent
at all, the trace starts with spawn, banner match, logfile attachment,
the sleep, and only then the login send. -/
theorem claim8 (env : Env) (h : loginCmd ∈ (runProgram env).sent) :
    ∃ rest, (runProgram env).trace =
      Ev.spawned :: Ev.matched bannerMarker :: Ev.logAttached :: Ev.slept 1 ::
        Ev.sent loginCmd :: rest := by
  obtain ⟨r, sOk, out⟩ := env
  cases sOk with
  | false => rw [runProgram_spawnFalse] at h; simp at h
  | true =>
    rw [runProgram_spawnTrue] at h ⊢
    cases h0 : expectConsume (compileP bannerMarker.data) out with
    | none =>
      rw [runOps_script_bannerFail out h0] at h
      simp at h
    | some pr =>
      obtain ⟨c0, r0⟩ := pr
      refine ⟨(runOps true r0 [Op.expect loginMarker, Op.sendline selectCmd,
        Op.expect selectMarker, Op.sendline fetchCmd, Op.expect fetchMarker]).trace, ?_⟩
      simp [runOps_script_head out c0 r0 h0]

/-- Witness for claim C8 at a conforming server stream. -/
theorem claim8_witness :
    ∃ rest, (runProgram ⟨Except.ok (), true, goodOut⟩).trace =
      Ev.spawned :: Ev.matched bannerMarker :: Ev.logAttached :: Ev.slept 1 ::
        Ev.sent loginCmd :: rest :=
  claim8 ⟨Except.ok (), true, goodOut⟩ (by decide)

/-- Claim C10: the three commands carry the distinct strictly
increasing tags 1, 2, 3; the login wait pattern begins with the tag of
the login command it answers; and in the script each send is
immediately followed by its wait, the login send by the wait for the
tagged login reply. -/
theorem claim10 :
    cmdTag loginCmd = ['1'] ∧ cmdTag selectCmd = ['2'] ∧ cmdTag fetchCmd = ['3'] ∧
    ('1' : Char) < '2' ∧ ('2' : Char) < '3' ∧
    cmdTag loginCmd <+: loginMarker.data ∧
    script = [Op.expect bannerMarker, Op.setLogfile, Op.sleep 1,
      Op.sendline loginCmd, Op.expect loginMarker, Op.sendline selectCmd,
      Op.expect selectMarker, Op.sendline fetchCmd, Op.expect fetchMarker] :=
  ⟨by decide, by decide, by decide, by decide, by decide, by decide, rfl⟩

/-- Counterexample to claim C2 as stated: this server produces the
banner (the line Z newline) and then the three literal markers in
order, and the run terminates normally, yet the standard-output
transcript does not contain all four markers in that order: the banner
was consumed by the wait at line 17, before line 18 attaches the
logfile, so it is never echoed. -/
theorem claim2_cex :
    ProducesMarkers goodOut ∧
    (runProgram ⟨Except.ok (), true, goodOut⟩).status = Status.ok ∧
    ¬ MatchesInOrder
        [litP ('Z' :: '\n' :: []), litP loginMarker.data,
         litP selectMarker.data, litP fetchMarker.data]
        (runProgram ⟨Except.ok (), true, goodOut⟩).transcript := by
  refine ⟨(matchSeq_iff _ _).mpr (by decide), by decide, ?_⟩
  intro h
  exact absurd ((matchSeq_iff _ _).mp h) (by decide)

/-- Claim C2, amended: for every server that produces the banner and
then the three literal markers in order, the script terminates
normally having sent the three commands, and the standard-output
transcript contains, in order, a window matching the login pattern,
then the literal select marker, then the literal fetch marker; the
banner, consumed before the logfile is attached, need not appear. -/
theorem claim2_amended (r : Except OSError Unit) (out : List Char)
    (h : ProducesMarkers out) :
    (runProgram ⟨r, true, out⟩).status = Status.ok ∧
    (runProgram ⟨r, true, out⟩).sent = [loginCmd, selectCmd, fetchCmd] ∧
    ∃ A w B C, (runProgram ⟨r, true, out⟩).transcript =
      A ++ w ++ B ++ selectMarker.data ++ C ++ fetchMarker.data ∧
      w.length = loginMarker.data.length ∧ matchesAt loginToks w = true := by
  obtain ⟨c0, r0, c1, r1, c2, r2, c3, r3, h0, h1, h2, h3⟩ :=
    script_completes (producesMarkers_to_pats h)
  rw [runProgram_spawnTrue]
  have hall := runOps_script_all out c0 r0 c1 r1 c2 r2 c3 r3 h0 h1 h2 h3
  obtain ⟨_, a1, w1, hc1, hl1, hm1⟩ := expectConsume_split loginToks r0 c1 r1 h1
  obtain ⟨_, a2, w2, hc2, hl2, hm2⟩ := expectConsume_split selectToks r1 c2 r2 h2
  obtain ⟨_, a3, w3, hc3, hl3, hm3⟩ := expectConsume_split fetchToks r2 c3 r3 h3
  have hsel : selectToks = litP selectMarker.data := by decide
  have hfet : fetchToks = litP fetchMarker.data := by decide
  have hw2 : w2 = selectMarker.data := by
    refine litP_exact _ _ ?_ ?_
    · rw [← hsel]; exact hm2
    · rw [hl2]; exact compileP_length _
  have hw3 : w3 = fetchMarker.data := by
    refine litP_exact _ _ ?_ ?_
    · rw [← hfet]; exact hm3
    · rw [hl3]; exact compileP_length _
  refine ⟨by rw [hall], by rw [hall],
    (loginCmd ++ lineSep).data ++ a1, w1,
    (selectCmd ++ lineSep).data ++ a2, (fetchCmd ++ lineSep).data ++ a3,
    ?_, ?_, hm1⟩
  · show ({ runOps false out script with
      trace := Ev.spawned :: (runOps false out script).trace }).transcript = _
    rw [hall]
    show (loginCmd ++ lineSep).data ++ (c1 ++ ((selectCmd ++ lineSep).data ++
      (c2 ++ ((fetchCmd ++ lineSep).data ++ c3)))) = _
    rw [hc1, hc2, hc3, hw2, hw3]
    simp [List.append_assoc]
  · rw [hl1]; exact compileP_length _

/-- Witness for the amended claim C2 at a conforming server stream. -/
theorem claim2_witness :
    (runProgram ⟨Except.ok (), true, goodOut2⟩).status = Status.ok ∧
    (runProgram ⟨Except.ok (), true, goodOut2⟩).sent = [loginCmd, selectCmd, fetchCmd] ∧
    ∃ A w B C, (runProgram ⟨Except.ok (), true, goodOut2⟩).transcript =
      A ++ w ++ B ++ selectMarker.data ++ C ++ fetchMarker.data ∧
      w.length = loginMarker.data.length ∧ matchesAt loginToks w = true :=
  claim2_amended (Except.ok ()) goodOut2 ((matchSeq_iff _ _).mpr (by decide))

/-- Counterexample to claim C3 as stated: this stream never contains
the literal login marker, but the compiled login pattern matches (its
dot matched by X), so the script does send select and fetch and even
terminates normally. -/
theorem claim3_cex :
    (¬ ∃ a b : List Char, trickyOut = a ++ loginMarker.data ++ b) ∧
    (runProgram ⟨Except.ok (), true, trickyOut⟩).status = Status.ok ∧
    selectCmd ∈ (runProgram ⟨Except.ok (), true, trickyOut⟩).sent ∧
    fetchCmd ∈ (runProgram ⟨Except.ok (), true, trickyOut⟩).sent := by
  refine ⟨?_, by decide, by decide, by decide⟩
  rintro ⟨a, b, hab⟩
  have hmio : MatchesInOrder [litP loginMarker.data] trickyOut :=
    ⟨a, loginMarker.data, b, by rw [hab], (litP_length _).symm,
      matchesAt_append _ _ _ (litP_matches_self _), trivial⟩
  exact absurd ((matchSeq_iff _ _).mp hmio) (by decide)

/-- Claim C3, amended: for every server whose output contains no match
of the compiled login pattern (in particular no literal login marker),
the run ends abnormally and neither the select nor the fetch command is
ever written. -/
theorem claim3_amended (r : Except OSError Unit) (out : List Char)
    (h : hasMatch loginToks out = false) :
    (runProgram ⟨r, true, out⟩).status ≠ Status.ok ∧
    selectCmd ∉ (runProgram ⟨r, true, out⟩).sent ∧
    fetchCmd ∉ (runProgram ⟨r, true, out⟩).sent := by
  rw [runProgram_spawnTrue]
  cases h0 : expectConsume (compileP bannerMarker.data) out with
  | none =>
    rw [runOps_script_bannerFail out h0]
    exact ⟨by simp, by simp, by simp⟩
  | some pr =>
    obtain ⟨c0, r0⟩ := pr
    have hsufr0 : r0 <:+ out := by
      obtain ⟨hs, _⟩ := expectConsume_split _ _ _ _ h0
      exact ⟨c0, hs.symm⟩
    have hnom : hasMatch loginToks r0 = false := by
      cases hx : hasMatch loginToks r0 with
      | false => rfl
      | true => rw [hasMatch_of_suffix loginToks hsufr0 hx] at h; exact absurd h (by simp)
    have h1 : expectConsume (compileP loginMarker.data) r0 = none :=
      (expectConsume_none_iff _ _).mpr hnom
    rw [runOps_script_loginFail out c0 r0 h0 h1]
    exact ⟨by simp, (by decide : selectCmd ∉ [loginCmd]),
      (by decide : fetchCmd ∉ [loginCmd])⟩

/-- Witness for the amended claim C3 at a server that never answers
the login. -/
theorem claim3_witness :
    (runProgram ⟨Except.ok (), true, silentOut⟩).status ≠ Status.ok ∧
    selectCmd ∉ (runProgram ⟨Except.ok (), true, silentOut⟩).sent ∧
    fetchCmd ∉ (runProgram ⟨Except.ok (), true, silentOut⟩).sent :=
  claim3_amended (Except.ok ()) silentOut (by decide)

/-- Counterexample to claim C4 as stated: after the banner, this
stream never contains the literal login success string, yet the script
proceeds to the select step (the dot of the pattern matched Q), so
occurrence of the literal string is not necessary for progress. -/
theorem claim4_cex :
    (¬ ∃ a b : List Char, trickyOut2 = a ++ loginMarker.data ++ b) ∧
    selectCmd ∈ (runProgram ⟨Except.ok (), true, trickyOut2⟩).sent := by
  refine ⟨?_, by decide⟩
  rintro ⟨a, b, hab⟩
  have hmio : MatchesInOrder [litP loginMarker.data] trickyOut2 :=
    ⟨a, loginMarker.data, b, by rw [hab], (litP_length _).symm,
      matchesAt_append _ _ _ (litP_matches_self _), trivial⟩
  exact absurd ((matchSeq_iff _ _).mp hmio) (by decide)

/-- Claim C4, amended: once the banner wait has consumed its match, the
script proceeds to the select step if and only if the compiled login
pattern (the literal string with its dot read as a wildcard) matches
somewhere in the remaining server output; a literal occurrence is
sufficient but not necessary, and without any match the script stays
blocked in the login wait until it fails. -/
theorem claim4_amended (r : Except OSError Unit) (out c0 r0 : List Char)
    (h0 : expectConsume bannerToks out = some (c0, r0)) :
    selectCmd ∈ (runProgram ⟨r, true, out⟩).sent ↔
      hasMatch loginToks r0 = true := by
  rw [runProgram_spawnTrue]
  cases hx : hasMatch loginToks r0 with
  | false =>
    have h1 : expectConsume (compileP loginMarker.data) r0 = none :=
      (expectConsume_none_iff _ _).mpr hx
    rw [runOps_script_loginFail out c0 r0 h0 h1]
    exact iff_of_false (by decide : selectCmd ∉ [loginCmd]) (by simp)
  | true =>
    cases h1 : expectConsume (compileP loginMarker.data) r0 with
    | none => rw [(expectConsume_none_iff _ _).mp h1] at hx; exact absurd hx (by simp)
    | some pr1 =>
      obtain ⟨c1, r1⟩ := pr1
      cases h2 : expectConsume (compileP selectMarker.data) r1 with
      | none =>
        rw [runOps_script_selectFail out c0 r0 c1 r1 h0 h1 h2]
        exact iff_of_true (by decide : selectCmd ∈ [loginCmd, selectCmd]) rfl
      | some pr2 =>
        obtain ⟨c2, r2⟩ := pr2
        cases h3 : expectConsume (compileP fetchMarker.data) r2 with
        | none =>
          rw [runOps_script_fetchFail out c0 r0 c1 r1 c2 r2 h0 h1 h2 h3]
          exact iff_of_true
            (by decide : selectCmd ∈ [loginCmd, selectCmd, fetchCmd]) rfl
        | some pr3 =>
          obtain ⟨c3, r3⟩ := pr3
          rw [runOps_script_all out c0 r0 c1 r1 c2 r2 c3 r3 h0 h1 h2 h3]
          exact iff_of_true
            (by decide : selectCmd ∈ [loginCmd, selectCmd, fetchCmd]) rfl

/-- Witness for the amended claim C4 at a conforming server stream. -/
theorem claim4_witness :
    selectCmd ∈ (runProgram ⟨Except.ok (), true, goodOut⟩).sent ↔
      hasMatch loginToks
        "1 OK logged in successfully as nikitapekin@gmail.comsuccessfulcompleted".data
        = true :=
  claim4_amended (Except.ok ()) goodOut ('Z' :: '\n' :: [])
    "1 OK logged in successfully as nikitapekin@gmail.comsuccessfulcompleted".data
    (by decide)

/-- Claim C9: the bytes sent do not depend on the server output beyond
gating progress: any two server streams that both produce the expected
markers in order make the script write the identical fixed sequence of
three command lines. -/
theorem claim9 (r r' : Except OSError Unit) (out out' : List Char)
    (h : ProducesMarkers out) (h' : ProducesMarkers out') :
    (runProgram ⟨r, true, out⟩).sent = (runProgram ⟨r', true, out'⟩).sent ∧
    (runProgram ⟨r, true, out⟩).sent = [loginCmd, selectCmd, fetchCmd] := by
  rw [runProgram_spawnTrue, runProgram_spawnTrue]
  have e1 := (script_run_ok (producesMarkers_to_pats h)).2
  have e2 := (script_run_ok (producesMarkers_to_pats h')).2
  constructor
  · show (runOps false out script).sent = (runOps false out' script).sent
    rw [e1, e2]
  · show (runOps false out script).sent = _
    rw [e1]

/-- Witness for claim C9 at two different conforming server streams. -/
theorem claim9_witness :
    (runProgram ⟨Except.ok (), true, goodOut⟩).sent =
      (runProgram ⟨Except.ok (), true, goodOut2⟩).sent ∧
    (runProgram ⟨Except.ok (), true, goodOut⟩).sent =
      [loginCmd, selectCmd, fetchCmd] :=
  claim9 (Except.ok ()) (Except.ok ()) goodOut goodOut2
    ((matchSeq_iff _ _).mpr (by decide)) ((matchSeq_iff _ _).mpr (by decide))
